import Mathlib

/-!
Verification of the HamCode encoder/decoder pair
(`hamcode_encoder.py`, `hamcode_decoder.py`).

The codec works on a 20×20 boolean grid.  We embed the grid as a total
function `Fin 20 → Fin 20 → Bool` (black = `true`, white = `false`);
Python's in-place cell assignments become the pointwise update `gridSet`.
All bit values in the Python code are `0`/`1` integers or booleans used
only through their truthiness, so bits are embedded as `Bool`; bytes are
`Nat` values below 256.  The process-wide random generator
(`random.getrandbits(1)` called once per padding bit) is embedded as an
injected stream `rand : Nat → Bool` consumed in call order.
-/

/-- `SIZE = 20` (both files). -/
def SIZE : Nat := 20

/-- `DATA_START = 4` (both files). -/
def DATA_START : Nat := 4

/-- `DATA_POSITIONS = [3,5,6,7,9,10,11,12,13,14,15]` (both files). -/
def DATA_POSITIONS : List Nat := [3, 5, 6, 7, 9, 10, 11, 12, 13, 14, 15]

/-- `PARITY_POSITIONS = [1,2,4,8]` (both files). -/
def PARITY_POSITIONS : List Nat := [1, 2, 4, 8]

/-- A 20×20 boolean grid (`SIZE` × `SIZE` lists of booleans in Python). -/
abbrev Grid := Fin 20 → Fin 20 → Bool

/-- `empty_grid()`: all cells white. -/
def empty_grid : Grid := fun _ _ => false

/-- A single cell assignment `g[r][c] = v` (out-of-range indices touch
nothing, matching that the Python loops never index out of range). -/
def gridSet (g : Grid) (r c : Nat) (v : Bool) : Grid :=
  fun r' c' => if r'.val = r ∧ c'.val = c then v else g r' c'

/-- Reading `g[r][c]`; all reads performed by the codec are in range. -/
def gridGet (g : Grid) (r c : Nat) : Bool :=
  if h : r < 20 ∧ c < 20 then g ⟨r, h.1⟩ ⟨c, h.2⟩ else false

/-- `apply_finder_overlay(g)` — identical in encoder and decoder: clear the
top 4 rows and left 4 columns, draw row 0, column 0, row 2 (cols 2..19),
column 2 (rows 2..19), and the four marker points `(1,3)`, `(3,1)`,
`(1,19)`, `(19,1)`, in exactly the source's write order. -/
def apply_finder_overlay (g : Grid) : Grid :=
  let g1 := (List.range 4).foldl
    (fun a r => (List.range SIZE).foldl (fun a2 c => gridSet a2 r c false) a) g
  let g2 := (List.range SIZE).foldl
    (fun a r => (List.range 4).foldl (fun a2 c => gridSet a2 r c false) a) g1
  let g3 := (List.range SIZE).foldl (fun a c => gridSet a 0 c true) g2
  let g4 := (List.range SIZE).foldl (fun a r => gridSet a r 0 true) g3
  let g5 := (List.range' 2 18).foldl (fun a c => gridSet a 2 c true) g4
  let g6 := (List.range' 2 18).foldl (fun a r => gridSet a r 2 true) g5
  let g7 := gridSet g6 1 3 true
  let g8 := gridSet g7 3 1 true
  let g9 := gridSet g8 1 19 true
  gridSet g9 19 1 true

/-- `parity(bits)`: XOR-fold; the Python version returns the `0`/`1` integer,
embedded as `Bool`. -/
def parity (bits : List Bool) : Bool :=
  bits.foldl (fun p b => xor p b) false

/-- `bytes_to_bits_msb(barr)` (encoder): MSB-first bit expansion,
`(B >> i) & 1` for `i = 7..0`. -/
def bytes_to_bits_msb (barr : List Nat) : List Bool :=
  barr.flatMap (fun B => (List.range 8).map (fun i => decide ((B >>> (7 - i)) &&& 1 = 1)))

/-- `bits_to_bytes_msb(bits)` (both files): group `bits` into
`(len+7)/8` bytes MSB first, reading past the end as `0`. -/
def bits_to_bytes_msb (bits : List Bool) : List Nat :=
  let n := (bits.length + 7) / 8
  (List.range n).map (fun i =>
    (List.range 8).foldl
      (fun v b => (v <<< 1) ||| (if bits.getD (i * 8 + b) false then 1 else 0)) 0)

/-- `[idx for idx in range(1,16) if (idx & p) != 0]` — the positions
covered by parity bit `p`, as listed in both encoder and decoder. -/
def coveredList (p : Nat) : List Nat :=
  (List.range' 1 15).filter (fun idx => decide (idx &&& p ≠ 0))

/-- The parity of the covered positions for parity bit `p`:
`parity([cw[idx] for idx in range(1,16) if (idx & p) != 0])` — this exact
expression appears in `encode_chunk_11_to_16` and in `decode_chunk_16`. -/
def covered_parity (cw : List Bool) (p : Nat) : Bool :=
  parity ((coveredList p).map (fun idx => cw.getD idx false))

/-- `encode_chunk_11_to_16(data11)` (encoder): place the 11 data bits,
fill the Hamming parity bits at `1,2,4,8`, then the overall parity at 0. -/
def encode_chunk_11_to_16 (data11 : List Bool) : List Bool :=
  let cw0 : List Bool := List.replicate 16 false
  let cw1 := (List.range 11).foldl
    (fun cw i => cw.set (DATA_POSITIONS.getD i 0) (data11.getD i false)) cw0
  let cw2 := PARITY_POSITIONS.foldl (fun cw p => cw.set p (covered_parity cw p)) cw1
  cw2.set 0 (parity (cw2.drop 1))

/-- `syndrome` accumulation of `decode_chunk_16`:
starting from 0, OR in `p` for every failing parity check. -/
def syndromeOf (cw : List Bool) : Nat :=
  PARITY_POSITIONS.foldl (fun s p => if covered_parity cw p then s ||| p else s) 0

/-- The result record of `decode_chunk_16`. -/
structure ChunkResult where
  ok : Bool
  doubleError : Bool
  corrected : Bool
  dataBits : List Bool
deriving DecidableEq, Repr

/-- `decode_chunk_16(cw_in)` (decoder): compute syndrome and overall
parity, apply the SECDED decision table, then read the 11 data bits. -/
def decode_chunk_16 (cw_in : List Bool) : ChunkResult :=
  if parity cw_in = true ∧ syndromeOf cw_in = 0 then
    ⟨true, false, true, DATA_POSITIONS.map
      (fun pos => (cw_in.set 0 (!(cw_in.getD 0 false))).getD pos false)⟩
  else if parity cw_in = true then
    ⟨true, false, true, DATA_POSITIONS.map
      (fun pos => (cw_in.set (syndromeOf cw_in)
        (!(cw_in.getD (syndromeOf cw_in) false))).getD pos false)⟩
  else if syndromeOf cw_in ≠ 0 then
    ⟨false, true, false, DATA_POSITIONS.map (fun pos => cw_in.getD pos false)⟩
  else
    ⟨true, false, false, DATA_POSITIONS.map (fun pos => cw_in.getD pos false)⟩

/-- `build_codewords_from_text` (encoder), with the text already UTF-8
encoded to `raw` (Python's `text.encode('utf-8')` happens at this call)
and the random generator as the injected stream `rand`.  Fails when the
encoding exceeds 21 bytes; otherwise appends the NUL, packs to bits, pads
with random bits to 176, splits into sixteen 11-bit chunks and encodes
each. -/
def build_codewords_from_text (raw : List Nat) (rand : Nat → Bool) :
    Except String (List (List Bool)) :=
  if raw.length > 21 then
    .error "입력은 UTF-8 기준 21바이트 이하여야 합니다."
  else
    let with_nul := raw ++ [0]
    let bits := bytes_to_bits_msb with_nul
    let padded := bits ++ (List.range (176 - bits.length)).map rand
    let bits2 := padded.take 176
    let chunks11 := (List.range 16).map (fun i => (bits2.drop (i * 11)).take 11)
    .ok (chunks11.map encode_chunk_11_to_16)

/-- Grid row of the cell holding bit `b` of chunk `ch`
(`start_r + rr` with `region_row = b // 4`, `rr = ch // 4`). -/
def cellR (b ch : Nat) : Nat := DATA_START + (b / 4) * 4 + ch / 4

/-- Grid column of the cell holding bit `b` of chunk `ch`
(`start_c + cc` with `region_col = b % 4`, `cc = ch % 4`). -/
def cellC (b ch : Nat) : Nat := DATA_START + (b % 4) * 4 + ch % 4

/-- `place_codewords_to_grid(cws, base)` (encoder): apply the finder
overlay to the base grid, then write bit `b` of chunk `ch` into its cell
for every region `b` and chunk `ch`. -/
def place_codewords_to_grid (cws : List (List Bool)) (base : Grid) : Grid :=
  let g0 := apply_finder_overlay base
  (List.range 16).foldl
    (fun g b =>
      (List.range 16).foldl
        (fun g2 ch => gridSet g2 (cellR b ch) (cellC b ch) ((cws.getD ch []).getD b false))
        g)
    g0

/-- `extract_codewords_from_grid(g)` (decoder): start from a 16×16 zero
matrix and read every cell back, the exact inverse loop of placement. -/
def extract_codewords_from_grid (g : Grid) : List (List Bool) :=
  let init : List (List Bool) := List.replicate 16 (List.replicate 16 false)
  (List.range 16).foldl
    (fun cws b =>
      (List.range 16).foldl
        (fun cws2 ch =>
          cws2.set ch ((cws2.getD ch []).set b (gridGet g (cellR b ch) (cellC b ch))))
        cws)
    init

/-- The per-chunk loop of `DecoderApp.decode`: decode chunks in order,
abort (`None`) on the first double error, otherwise accumulate the data
bits in order together with the count of corrected chunks. -/
def decodeChunks : List (List Bool) → Option (List Bool × Nat)
  | [] => some ([], 0)
  | cw :: rest =>
    if (decode_chunk_16 cw).doubleError then none
    else
      match decodeChunks rest with
      | none => none
      | some (bits, cnt) =>
        some ((decode_chunk_16 cw).dataBits ++ bits,
          (if (decode_chunk_16 cw).corrected then 1 else 0) + cnt)

/-- Lowercase zero-padded two-digit hex of one byte — Python's
`f-string` `02x` rendering used in the decoder's fallback branch. -/
def hexByte (b : Nat) : String :=
  String.mk [Nat.digitChar (b / 16), Nat.digitChar (b % 16)]

/-- The result of `DecoderApp.decode`, at byte level: a successfully
UTF-8-decodable payload is reported as `decoded` (the shown text is the
UTF-8 decoding of `payload`); an invalid payload takes the hex-fallback
branch, whose full shown text is carried in `text`. -/
inductive DecodeResult where
  | rejected : DecodeResult
  | decoded (payload : List Nat) (correctedChunks : Nat) : DecodeResult
  | fallback (payload : List Nat) (text : String) (correctedChunks : Nat) : DecodeResult
deriving DecidableEq, Repr

/-- Strict UTF-8 validity of a byte sequence.  Models Python's
`bytes.decode('utf-8')` success condition (the codec itself is library
code outside this repository): ASCII, or well-formed 2–4 byte sequences
excluding overlong forms, surrogates and values beyond U+10FFFF. -/
def isValidUtf8 : List Nat → Bool
  | [] => true
  | b :: rest =>
    if b < 0x80 then isValidUtf8 rest
    else if b < 0xC2 then false
    else if b < 0xE0 then
      match rest with
      | b1 :: r => decide (0x80 ≤ b1) && decide (b1 < 0xC0) && isValidUtf8 r
      | [] => false
    else if b < 0xF0 then
      match rest with
      | b1 :: b2 :: r =>
        (if b = 0xE0 then decide (0xA0 ≤ b1) && decide (b1 < 0xC0)
         else if b = 0xED then decide (0x80 ≤ b1) && decide (b1 < 0xA0)
         else decide (0x80 ≤ b1) && decide (b1 < 0xC0)) &&
        (decide (0x80 ≤ b2) && decide (b2 < 0xC0)) && isValidUtf8 r
      | _ => false
    else if b < 0xF5 then
      match rest with
      | b1 :: b2 :: b3 :: r =>
        (if b = 0xF0 then decide (0x90 ≤ b1) && decide (b1 < 0xC0)
         else if b = 0xF4 then decide (0x80 ≤ b1) && decide (b1 < 0x90)
         else decide (0x80 ≤ b1) && decide (b1 < 0xC0)) &&
        (decide (0x80 ≤ b2) && decide (b2 < 0xC0)) &&
        (decide (0x80 ≤ b3) && decide (b3 < 0xC0)) && isValidUtf8 r
      | _ => false
    else false

/-- The NUL truncation of `DecoderApp.decode` (decoder, lines 188–192):
find the first 0x00 byte; the payload is everything before it, or the
whole buffer when there is none. -/
def payloadOf (data_bytes : List Nat) : List Nat :=
  match data_bytes.findIdx? (fun b => b == 0) with
  | none => data_bytes
  | some i => data_bytes.take i

/-- The fallback text of the decoder's `except` branch (line 196):
`"(바이트 해석 오류) HEX: "` followed by the space-separated lowercase
hex dump of the payload. -/
def fallbackText (payload : List Nat) : String :=
  "(바이트 해석 오류) HEX: " ++ String.intercalate " " (payload.map hexByte)

/-- `DecoderApp.decode` (decoder, lines 174–198): extract the codewords,
decode all 16 chunks (abort on double error), pack the 176 data bits to
22 bytes, truncate at the first NUL, and UTF-8-decode the payload with
the hex dump as fallback text. -/
def DecoderApp.decode (g : Grid) : DecodeResult :=
  match decodeChunks (extract_codewords_from_grid g) with
  | none => .rejected
  | some (data_bits, corrected_count) =>
    let data_bytes := bits_to_bytes_msb data_bits
    let payload := payloadOf data_bytes
    if isValidUtf8 payload then .decoded payload corrected_count
    else .fallback payload (fallbackText payload) corrected_count

/-- `EncoderApp.encode` (encoder, lines 174–182): build the codewords
from the entry text; on success place them over the current grid, on
failure (`ValueError` shown in a message box) leave the grid untouched.
Returns the new grid state and the error message, if any. -/
def EncoderApp.encode (grid : Grid) (raw : List Nat) (rand : Nat → Bool) :
    Grid × Option String :=
  match build_codewords_from_text raw rand with
  | .ok cws => (place_codewords_to_grid cws grid, none)
  | .error e => (grid, some e)

lemma gridSet_apply (g : Grid) (r c : Nat) (v : Bool) (r' c' : Fin 20) :
    gridSet g r c v r' c' = if r'.val = r ∧ c'.val = c then v else g r' c' := rfl

lemma foldl_gridSet_row (R v : Bool → Bool) : True := trivial

lemma foldl_row (a n R : Nat) (v : Bool) (g : Grid) (r' c' : Fin 20) :
    ((List.range' a n).foldl (fun acc cc => gridSet acc R cc v) g) r' c' =
      if r'.val = R ∧ a ≤ c'.val ∧ c'.val < a + n then v else g r' c' := by
  induction n generalizing a g with
  | zero => simp only [List.range', List.foldl_nil]; split_ifs with h <;> first | omega | rfl
  | succ n ih =>
    rw [List.range'_succ, List.foldl_cons, ih]
    simp only [gridSet]
    split_ifs <;> first | rfl | omega

lemma foldl_col (a n C : Nat) (v : Bool) (g : Grid) (r' c' : Fin 20) :
    ((List.range' a n).foldl (fun acc rr => gridSet acc rr C v) g) r' c' =
      if (a ≤ r'.val ∧ r'.val < a + n) ∧ c'.val = C then v else g r' c' := by
  induction n generalizing a g with
  | zero => simp only [List.range', List.foldl_nil]; split_ifs with h <;> first | omega | rfl
  | succ n ih =>
    rw [List.range'_succ, List.foldl_cons, ih]
    simp only [gridSet]
    split_ifs <;> first | rfl | omega

lemma foldl_rect (a n b m : Nat) (v : Bool) (g : Grid) (r' c' : Fin 20) :
    ((List.range' a n).foldl
      (fun acc r => (List.range' b m).foldl (fun a2 c => gridSet a2 r c v) acc) g) r' c' =
      if (a ≤ r'.val ∧ r'.val < a + n) ∧ (b ≤ c'.val ∧ c'.val < b + m) then v
      else g r' c' := by
  induction n generalizing a g with
  | zero => simp only [List.range', List.foldl_nil]; split_ifs with h <;> first | omega | rfl
  | succ n ih =>
    rw [List.range'_succ, List.foldl_cons, ih, foldl_row]
    split_ifs <;> first | rfl | omega

set_option maxHeartbeats 2000000 in
lemma overlay_get (g : Grid) (r' c' : Fin 20) :
    apply_finder_overlay g r' c' =
      if r'.val = 19 ∧ c'.val = 1 then true
      else if r'.val = 1 ∧ c'.val = 19 then true
      else if r'.val = 3 ∧ c'.val = 1 then true
      else if r'.val = 1 ∧ c'.val = 3 then true
      else if 2 ≤ r'.val ∧ c'.val = 2 then true
      else if r'.val = 2 ∧ 2 ≤ c'.val then true
      else if c'.val = 0 then true
      else if r'.val = 0 then true
      else if c'.val < 4 then false
      else if r'.val < 4 then false
      else g r' c' := by
  have hr := r'.isLt
  have hc := c'.isLt
  show (gridSet _ 19 1 true) r' c' = _
  simp only [show SIZE = 20 from rfl, List.range_eq_range', gridSet_apply,
    foldl_col, foldl_row, foldl_rect]
  split_ifs <;> first | rfl | omega

set_option maxHeartbeats 4000000 in
/-- C8: `apply_finder_overlay` is idempotent — applying the finder
overlay twice gives the same 20×20 grid as applying it once. -/
theorem overlay_idem (g : Grid) :
    apply_finder_overlay (apply_finder_overlay g) = apply_finder_overlay g := by
  funext r c
  rw [overlay_get (apply_finder_overlay g), overlay_get g]
  split_ifs <;> rfl

set_option maxHeartbeats 4000000 in
/-- C10: `apply_finder_overlay` leaves every data-region cell (row ≥ 4
and column ≥ 4) unchanged; only finder-region cells are written. -/
theorem overlay_frame (g : Grid) (r c : Fin 20) (hr : 4 ≤ r.val) (hc : 4 ≤ c.val) :
    apply_finder_overlay g r c = g r c := by
  rw [overlay_get]
  split_ifs <;> first | rfl | omega

/-- Region index of the cell at `(r, c)` of the data area. -/
def bOf (r c : Nat) : Nat := ((r - 4) / 4) * 4 + ((c - 4) / 4)

/-- Chunk index of the cell at `(r, c)` of the data area. -/
def chOf (r c : Nat) : Nat := ((r - 4) % 4) * 4 + ((c - 4) % 4)

lemma place_inner (f : Nat → Bool) (b : Nat) (hb : b < 16) (a n : Nat) (hn : a + n ≤ 16)
    (g : Grid) (r' c' : Fin 20) :
    ((List.range' a n).foldl
      (fun acc ch => gridSet acc (cellR b ch) (cellC b ch) (f ch)) g) r' c' =
      if 4 ≤ r'.val ∧ 4 ≤ c'.val ∧
          ((r'.val - 4) / 4) * 4 + ((c'.val - 4) / 4) = b ∧
          a ≤ ((r'.val - 4) % 4) * 4 + ((c'.val - 4) % 4) ∧
          ((r'.val - 4) % 4) * 4 + ((c'.val - 4) % 4) < a + n
      then f (((r'.val - 4) % 4) * 4 + ((c'.val - 4) % 4)) else g r' c' := by
  have hr := r'.isLt
  have hc := c'.isLt
  induction n generalizing a g with
  | zero =>
    simp only [List.range', List.foldl_nil]
    split_ifs <;> first | omega | rfl
  | succ n ih =>
    rw [List.range'_succ, List.foldl_cons, ih _ (by omega)]
    simp only [gridSet_apply, cellR, cellC, DATA_START]
    split_ifs <;>
      first
        | rfl
        | omega
        | (congr 1 <;> first | omega | (congr 1 <;> omega))

lemma place_outer (v : Nat → Nat → Bool) (a n : Nat) (hn : a + n ≤ 16)
    (g : Grid) (r' c' : Fin 20) :
    ((List.range' a n).foldl
      (fun acc b => (List.range' 0 16).foldl
        (fun a2 ch => gridSet a2 (cellR b ch) (cellC b ch) (v b ch)) acc) g) r' c' =
      if 4 ≤ r'.val ∧ 4 ≤ c'.val ∧
          a ≤ ((r'.val - 4) / 4) * 4 + ((c'.val - 4) / 4) ∧
          ((r'.val - 4) / 4) * 4 + ((c'.val - 4) / 4) < a + n
      then v (((r'.val - 4) / 4) * 4 + ((c'.val - 4) / 4))
             (((r'.val - 4) % 4) * 4 + ((c'.val - 4) % 4))
      else g r' c' := by
  have hr := r'.isLt
  have hc := c'.isLt
  induction n generalizing a g with
  | zero =>
    simp only [List.range', List.foldl_nil]
    split_ifs <;> first | omega | rfl
  | succ n ih =>
    rw [show List.range' a (n + 1) = a :: List.range' (a + 1) n from List.range'_succ .., 
      List.foldl_cons, ih _ (by omega),
      place_inner (v a) a (by omega) 0 16 (by omega)]
    split_ifs <;>
      first
        | rfl
        | omega
        | (congr 1 <;> first | omega | (congr 1 <;> omega))

set_option maxHeartbeats 1000000 in
lemma place_get (cws : List (List Bool)) (base : Grid) (r' c' : Fin 20) :
    place_codewords_to_grid cws base r' c' =
      if 4 ≤ r'.val ∧ 4 ≤ c'.val
      then (cws.getD (((r'.val - 4) % 4) * 4 + ((c'.val - 4) % 4)) []).getD
             (((r'.val - 4) / 4) * 4 + ((c'.val - 4) / 4)) false
      else apply_finder_overlay base r' c' := by
  have hr := r'.isLt
  have hc := c'.isLt
  simp only [place_codewords_to_grid]
  rw [List.range_eq_range',
    place_outer (fun b ch => (cws.getD ch []).getD b false) 0 16 (by omega)]
  split_ifs <;> first | rfl | omega

lemma getD_set_gen {a : Type} (l : List a) (i j : Nat) (v d : a) :
    (l.set i v).getD j d = if i = j ∧ i < l.length then v else l.getD j d := by
  rw [List.getD_eq_getElem?_getD, List.getD_eq_getElem?_getD, List.getElem?_set]
  split_ifs <;>
    first
      | rfl
      | omega
      | (rw [List.getElem?_eq_none (by omega)])

/-- Entry `(ch, b)` of a 16×16 codeword matrix, with the out-of-range default. -/
def mGet (A : List (List Bool)) (ch b : Nat) : Bool := (A.getD ch []).getD b false

/-- Shape invariant of the codeword matrices built by the decoder. -/
def MShape (A : List (List Bool)) : Prop :=
  A.length = 16 ∧ ∀ row ∈ A, row.length = 16

lemma MShape.rowlen {A : List (List Bool)} (hA : MShape A) {ch : Nat} (hch : ch < 16) :
    (A.getD ch []).length = 16 := by
  obtain ⟨hlen, hrow⟩ := hA
  rw [List.getD_eq_getElem A [] (by omega)]
  exact hrow _ (List.getElem_mem _)

lemma mGet_set (A : List (List Bool)) (hA : MShape A) (ch' b' : Nat) (v : Bool)
    (hch : ch' < 16) (ch b : Nat) :
    mGet (A.set ch' ((A.getD ch' []).set b' v)) ch b =
      if ch = ch' ∧ b = b' ∧ b' < 16 then v else mGet A ch b := by
  have hlen : A.length = 16 := hA.1
  have hrowlen := hA.rowlen hch
  unfold mGet
  by_cases hc : ch = ch'
  · subst hc
    rw [getD_set_gen, if_pos ⟨rfl, by omega⟩, getD_set_gen, hrowlen]
    split_ifs <;> first | rfl | omega
  · rw [getD_set_gen, if_neg (by omega)]
    split_ifs <;> first | rfl | omega

lemma MShape_set (A : List (List Bool)) (hA : MShape A) (ch' b' : Nat) (v : Bool)
    (hch : ch' < 16) :
    MShape (A.set ch' ((A.getD ch' []).set b' v)) := by
  have hrowlen := hA.rowlen hch
  obtain ⟨hlen, hrow⟩ := hA
  refine ⟨by rw [List.length_set, hlen], ?_⟩
  intro row hmem
  rcases List.mem_or_eq_of_mem_set hmem with h | h
  · exact hrow _ h
  · subst h
    rw [List.length_set, hrowlen]

lemma extract_inner (f : Nat → Bool) (b' : Nat) (hb : b' < 16) (a n : Nat)
    (hn : a + n ≤ 16) (A : List (List Bool)) (hA : MShape A) :
    MShape ((List.range' a n).foldl
      (fun M ch' => M.set ch' ((M.getD ch' []).set b' (f ch'))) A) ∧
    ∀ ch b : Nat,
      mGet ((List.range' a n).foldl
        (fun M ch' => M.set ch' ((M.getD ch' []).set b' (f ch'))) A) ch b =
        if b = b' ∧ a ≤ ch ∧ ch < a + n then f ch else mGet A ch b := by
  induction n generalizing a A with
  | zero =>
    refine ⟨hA, fun ch b => ?_⟩
    simp only [List.range', List.foldl_nil]
    split_ifs <;> first | rfl | omega
  | succ n ih =>
    rw [show List.range' a (n + 1) = a :: List.range' (a + 1) n from List.range'_succ ..,
      List.foldl_cons]
    obtain ⟨ihS, ihG⟩ := ih (a + 1) (by omega) _ (MShape_set A hA a b' (f a) (by omega))
    refine ⟨ihS, fun ch b => ?_⟩
    rw [ihG, mGet_set A hA a b' (f a) (by omega)]
    split_ifs <;> first | rfl | omega | (congr 1; omega)

lemma extract_outer (v : Nat → Nat → Bool) (a n : Nat) (hn : a + n ≤ 16)
    (A : List (List Bool)) (hA : MShape A) :
    MShape ((List.range' a n).foldl
      (fun M b' => (List.range' 0 16).foldl
        (fun M2 ch' => M2.set ch' ((M2.getD ch' []).set b' (v b' ch'))) M) A) ∧
    ∀ ch b : Nat,
      mGet ((List.range' a n).foldl
        (fun M b' => (List.range' 0 16).foldl
          (fun M2 ch' => M2.set ch' ((M2.getD ch' []).set b' (v b' ch'))) M) A) ch b =
        if ch < 16 ∧ a ≤ b ∧ b < a + n then v b ch else mGet A ch b := by
  induction n generalizing a A with
  | zero =>
    refine ⟨hA, fun ch b => ?_⟩
    simp only [List.range', List.foldl_nil]
    split_ifs <;> first | rfl | omega
  | succ n ih =>
    rw [show List.range' a (n + 1) = a :: List.range' (a + 1) n from List.range'_succ ..,
      List.foldl_cons]
    obtain ⟨innS, innG⟩ := extract_inner (v a) a (by omega) 0 16 (by omega) A hA
    obtain ⟨ihS, ihG⟩ := ih (a + 1) (by omega) _ innS
    refine ⟨ihS, fun ch b => ?_⟩
    rw [ihG, innG]
    split_ifs <;>
      first
        | rfl
        | omega
        | (congr 1 <;> first | omega | (congr 1 <;> omega))

lemma init_MShape : MShape (List.replicate 16 (List.replicate 16 false)) :=
  ⟨List.length_replicate .., fun row hrow => by
    rw [List.eq_of_mem_replicate hrow, List.length_replicate]⟩

lemma extract_shape (g : Grid) : MShape (extract_codewords_from_grid g) := by
  unfold extract_codewords_from_grid
  rw [List.range_eq_range']
  exact (extract_outer (fun b ch => gridGet g (cellR b ch) (cellC b ch)) 0 16 (by omega)
    _ init_MShape).1

lemma mGet_init (ch b : Nat) :
    mGet (List.replicate 16 (List.replicate 16 false)) ch b = false := by
  unfold mGet
  rcases Nat.lt_or_ge ch 16 with h | h
  · rw [List.getD_eq_getElem (List.replicate 16 (List.replicate 16 false)) []
      (by simpa using h), List.getElem_replicate]
    rcases Nat.lt_or_ge b 16 with h2 | h2
    · rw [List.getD_eq_getElem (List.replicate 16 false) false
        (by simpa using h2), List.getElem_replicate]
    · rw [List.getD_eq_getElem?_getD, List.getElem?_eq_none (by simpa using h2)]
      rfl
  · rw [List.getD_eq_getElem?_getD (List.replicate 16 (List.replicate 16 false)),
      List.getElem?_eq_none (by simpa using h)]
    rfl

lemma extract_get (g : Grid) (ch b : Nat) (hch : ch < 16) (hb : b < 16) :
    mGet (extract_codewords_from_grid g) ch b = gridGet g (cellR b ch) (cellC b ch) := by
  unfold extract_codewords_from_grid
  rw [List.range_eq_range']
  rw [(extract_outer (fun b ch => gridGet g (cellR b ch) (cellC b ch)) 0 16 (by omega)
    _ init_MShape).2]
  rw [if_pos ⟨hch, by omega, by omega⟩]

lemma mGet_eq_getElem (A : List (List Bool)) (ch b : Nat) (h1 : ch < A.length)
    (h2 : b < A[ch].length) : mGet A ch b = A[ch][b] := by
  unfold mGet
  rw [List.getD_eq_getElem A [] h1, List.getD_eq_getElem _ false h2]

lemma gridGet_lt (g : Grid) (r c : Nat) (hr : r < 20) (hc : c < 20) :
    gridGet g r c = g ⟨r, hr⟩ ⟨c, hc⟩ := by
  unfold gridGet
  rw [dif_pos ⟨hr, hc⟩]

lemma cellR_lt (b ch : Nat) (hb : b < 16) (hch : ch < 16) : cellR b ch < 20 := by
  simp only [cellR, DATA_START]; omega

lemma cellC_lt (b ch : Nat) (hb : b < 16) (hch : ch < 16) : cellC b ch < 20 := by
  simp only [cellC, DATA_START]; omega

lemma mGet_extract_place (cws : List (List Bool)) (base : Grid) (ch b : Nat)
    (hch : ch < 16) (hb : b < 16) :
    mGet (extract_codewords_from_grid (place_codewords_to_grid cws base)) ch b =
      (cws.getD ch []).getD b false := by
  rw [extract_get _ _ _ hch hb,
    gridGet_lt _ _ _ (cellR_lt b ch hb hch) (cellC_lt b ch hb hch), place_get]
  have e1 : (cellR b ch - 4) % 4 * 4 + (cellC b ch - 4) % 4 = ch := by
    simp only [cellR, cellC, DATA_START]; omega
  have e2 : (cellR b ch - 4) / 4 * 4 + (cellC b ch - 4) / 4 = b := by
    simp only [cellR, cellC, DATA_START]; omega
  rw [if_pos]
  · rw [e1, e2]
  · refine ⟨?_, ?_⟩ <;> simp only [cellR, cellC, DATA_START] <;> omega

/-- Extraction inverts placement on the data region. -/
theorem extract_place (cws : List (List Bool)) (base : Grid)
    (hshape : MShape cws) :
    extract_codewords_from_grid (place_codewords_to_grid cws base) = cws := by
  have hES := extract_shape (place_codewords_to_grid cws base)
  apply List.ext_getElem
  · rw [hES.1, hshape.1]
  intro ch h1 h2
  apply List.ext_getElem
  · rw [hES.2 _ (List.getElem_mem _), hshape.2 _ (List.getElem_mem _)]
  intro b hb1 hb2
  have hch : ch < 16 := by rw [hES.1] at h1; omega
  have hb : b < 16 := by rw [hES.2 _ (List.getElem_mem _)] at hb1; omega
  rw [← mGet_eq_getElem _ _ _ h1 hb1, ← mGet_eq_getElem _ _ _ h2 hb2]
  exact mGet_extract_place cws base ch b hch hb

lemma parity_foldl_init (l : List Bool) (b : Bool) :
    l.foldl (fun p x => xor p x) b = xor b (parity l) := by
  induction l generalizing b with
  | nil => cases b <;> rfl
  | cons a t ih =>
    unfold parity
    simp only [List.foldl_cons]
    rw [ih, ih (xor false a), Bool.false_xor, ← Bool.xor_assoc]

lemma parity_cons (a : Bool) (l : List Bool) : parity (a :: l) = xor a (parity l) := by
  unfold parity
  rw [List.foldl_cons, parity_foldl_init, Bool.false_xor]
  rfl

lemma parity_map_getD_set (idxs : List Nat) (hnd : idxs.Nodup) (cw : List Bool)
    (j : Nat) (v : Bool) (hj : j < cw.length) :
    parity (idxs.map fun i => (cw.set j v).getD i false) =
      if j ∈ idxs
      then xor (xor v (cw.getD j false)) (parity (idxs.map fun i => cw.getD i false))
      else parity (idxs.map fun i => cw.getD i false) := by
  induction idxs with
  | nil => simp
  | cons i t ih =>
    rcases List.nodup_cons.mp hnd with ⟨hni, hndt⟩
    simp only [List.map_cons]
    rw [parity_cons, parity_cons, getD_set_gen]
    by_cases hji : j = i
    · subst hji
      rw [if_pos ⟨rfl, hj⟩, ih hndt, if_neg hni, if_pos (List.mem_cons_self ..)]
      generalize cw.getD j false = x
      generalize parity (t.map fun i => cw.getD i false) = y
      cases v <;> cases x <;> cases y <;> rfl
    · rw [if_neg (fun h => hji h.1), ih hndt]
      by_cases hjt : j ∈ t
      · rw [if_pos hjt, if_pos (List.mem_cons_of_mem _ hjt)]
        generalize xor v (cw.getD j false) = x
        generalize cw.getD i false = y
        generalize parity (t.map fun i => cw.getD i false) = z
        cases x <;> cases y <;> cases z <;> rfl
      · rw [if_neg hjt, if_neg (by simp [hji, hjt])]

lemma coveredList_nodup (p : Nat) : (coveredList p).Nodup :=
  List.Nodup.filter _ (List.nodup_range' ..)

lemma cp_set (cw : List Bool) (j : Nat) (v : Bool) (p : Nat) (hj : j < cw.length) :
    covered_parity (cw.set j v) p =
      if j ∈ coveredList p
      then xor (xor v (cw.getD j false)) (covered_parity cw p)
      else covered_parity cw p :=
  parity_map_getD_set _ (coveredList_nodup p) cw j v hj

/-- The bit-flip used to model a single-cell corruption of a codeword. -/
def flipBit (cw : List Bool) (j : Nat) : List Bool :=
  cw.set j (!(cw.getD j false))

lemma cp_flip (cw : List Bool) (j p : Nat) (hj : j < cw.length) :
    covered_parity (flipBit cw j) p =
      xor (decide (j ∈ coveredList p)) (covered_parity cw p) := by
  unfold flipBit
  rw [cp_set _ _ _ _ hj]
  by_cases h : j ∈ coveredList p
  · rw [if_pos h, decide_eq_true h]
    generalize cw.getD j false = x
    cases x <;> rfl
  · rw [if_neg h, decide_eq_false h, Bool.false_xor]

lemma parity_set (cw : List Bool) (j : Nat) (v : Bool) (hj : j < cw.length) :
    parity (cw.set j v) = xor (xor v (cw.getD j false)) (parity cw) := by
  induction cw generalizing j with
  | nil => simp at hj
  | cons a t ih =>
    cases j with
    | zero =>
      show parity (v :: t) = _
      rw [parity_cons, parity_cons, List.getD_cons_zero]
      generalize parity t = y
      cases v <;> cases a <;> cases y <;> rfl
    | succ n =>
      show parity (a :: t.set n v) = _
      rw [parity_cons, parity_cons, List.getD_cons_succ, ih _ (by simpa using hj)]
      generalize xor v (t.getD n false) = x
      generalize parity t = y
      cases x <;> cases a <;> cases y <;> rfl

lemma parity_flip (cw : List Bool) (j : Nat) (hj : j < cw.length) :
    parity (flipBit cw j) = !(parity cw) := by
  unfold flipBit
  rw [parity_set _ _ _ hj]
  generalize cw.getD j false = x
  generalize parity cw = y
  cases x <;> cases y <;> rfl

lemma set_getD_self (l : List Bool) (n : Nat) (h : n < l.length) :
    l.set n (l.getD n false) = l := by
  apply List.ext_getElem (by rw [List.length_set])
  intro i h1 h2
  rw [List.getElem_set]
  split_ifs with hni
  · subst hni
    rw [List.getD_eq_getElem l false h]
  · rfl

lemma syndromeOf_eq (cw : List Bool) :
    syndromeOf cw =
      (if covered_parity cw 1 then 1 else 0) + (if covered_parity cw 2 then 2 else 0) +
      (if covered_parity cw 4 then 4 else 0) + (if covered_parity cw 8 then 8 else 0) := by
  unfold syndromeOf
  simp only [PARITY_POSITIONS, List.foldl_cons, List.foldl_nil]
  cases covered_parity cw 1 <;> cases covered_parity cw 2 <;>
    cases covered_parity cw 4 <;> cases covered_parity cw 8 <;> rfl

lemma getD_set_ne (l : List Bool) (i j : Nat) (v : Bool) (h : i ≠ j) :
    (l.set i v).getD j false = l.getD j false := by
  rw [getD_set_gen, if_neg (fun hc => h hc.1)]

lemma getD_set_eq2 (l : List Bool) (i : Nat) (v : Bool) (h : i < l.length) :
    (l.set i v).getD i false = v := by
  rw [getD_set_gen, if_pos ⟨rfl, h⟩]

lemma parity_eq_head_tail (l : List Bool) (h : l ≠ []) :
    parity l = xor (l.getD 0 false) (parity (l.drop 1)) := by
  cases l with
  | nil => exact absurd rfl h
  | cons a t => rw [parity_cons, List.getD_cons_zero, List.drop_succ_cons, List.drop_zero]

/-- The codeword after the 11 data bits are placed (`cw` after the first
loop of `encode_chunk_11_to_16`). -/
def dataPlaced (data11 : List Bool) : List Bool :=
  (List.range 11).foldl
    (fun cw i => cw.set (DATA_POSITIONS.getD i 0) (data11.getD i false))
    (List.replicate 16 false)

/-- Intermediate states of the parity-fill loop of `encode_chunk_11_to_16`. -/
def pf1 (d : List Bool) : List Bool := (dataPlaced d).set 1 (covered_parity (dataPlaced d) 1)

/-- Second parity-fill step. -/
def pf2 (d : List Bool) : List Bool := (pf1 d).set 2 (covered_parity (pf1 d) 2)

/-- Third parity-fill step. -/
def pf4 (d : List Bool) : List Bool := (pf2 d).set 4 (covered_parity (pf2 d) 4)

/-- The codeword after the four Hamming parity bits are filled in
(`cw` after the second loop of `encode_chunk_11_to_16`). -/
def parityFilled (d : List Bool) : List Bool := (pf4 d).set 8 (covered_parity (pf4 d) 8)

lemma encode_eq (d : List Bool) :
    encode_chunk_11_to_16 d =
      (parityFilled d).set 0 (parity ((parityFilled d).drop 1)) := rfl

lemma dataPlaced_eq (d : List Bool) :
    dataPlaced d =
      [false, false, false, d.getD 0 false, false, d.getD 1 false, d.getD 2 false,
       d.getD 3 false, false, d.getD 4 false, d.getD 5 false, d.getD 6 false,
       d.getD 7 false, d.getD 8 false, d.getD 9 false, d.getD 10 false] := rfl

lemma dataPlaced_length (d : List Bool) : (dataPlaced d).length = 16 := by
  rw [dataPlaced_eq]
  rfl

lemma dataPlaced_getD_parity (d : List Bool) :
    (dataPlaced d).getD 0 false = false ∧ (dataPlaced d).getD 1 false = false ∧
    (dataPlaced d).getD 2 false = false ∧ (dataPlaced d).getD 4 false = false ∧
    (dataPlaced d).getD 8 false = false := by
  rw [dataPlaced_eq]
  exact ⟨rfl, rfl, rfl, rfl, rfl⟩

lemma pf_lengths (d : List Bool) :
    (pf1 d).length = 16 ∧ (pf2 d).length = 16 ∧ (pf4 d).length = 16 ∧
    (parityFilled d).length = 16 := by
  unfold parityFilled pf4 pf2 pf1
  simp only [List.length_set]
  exact ⟨rfl, rfl, rfl, rfl⟩

lemma cp_fill_step (cw : List Bool) (p : Nat) (hp : p < cw.length)
    (hp0 : cw.getD p false = false) (hpmem : p ∈ coveredList p) :
    covered_parity (cw.set p (covered_parity cw p)) p = false := by
  rw [cp_set _ _ _ _ hp, if_pos hpmem, hp0]
  generalize covered_parity cw p = x
  cases x <;> rfl

lemma cp_fill_other (cw : List Bool) (p q : Nat) (hq : q < cw.length)
    (hqmem : q ∉ coveredList p) (v : Bool) :
    covered_parity (cw.set q v) p = covered_parity cw p := by
  rw [cp_set _ _ _ _ hq, if_neg hqmem]

lemma parityFilled_cp (d : List Bool) :
    covered_parity (parityFilled d) 1 = false ∧
    covered_parity (parityFilled d) 2 = false ∧
    covered_parity (parityFilled d) 4 = false ∧
    covered_parity (parityFilled d) 8 = false := by
  obtain ⟨g0, g1, g2, g4, g8⟩ := dataPlaced_getD_parity d
  obtain ⟨l1, l2, l4, l8⟩ := pf_lengths d
  have hL := dataPlaced_length d
  refine ⟨?_, ?_, ?_, ?_⟩
  · unfold parityFilled
    rw [cp_fill_other _ _ 8 (by omega) (by decide)]
    unfold pf4
    rw [cp_fill_other _ _ 4 (by omega) (by decide)]
    unfold pf2
    rw [cp_fill_other _ _ 2 (by omega) (by decide)]
    unfold pf1
    exact cp_fill_step _ 1 (by omega) g1 (by decide)
  · unfold parityFilled
    rw [cp_fill_other _ _ 8 (by omega) (by decide)]
    unfold pf4
    rw [cp_fill_other _ _ 4 (by omega) (by decide)]
    unfold pf2
    refine cp_fill_step _ 2 (by omega) ?_ (by decide)
    unfold pf1
    rw [getD_set_ne _ _ _ _ (by omega)]
    exact g2
  · unfold parityFilled
    rw [cp_fill_other _ _ 8 (by omega) (by decide)]
    unfold pf4
    refine cp_fill_step _ 4 (by omega) ?_ (by decide)
    unfold pf2 pf1
    rw [getD_set_ne _ _ _ _ (by omega), getD_set_ne _ _ _ _ (by omega)]
    exact g4
  · unfold parityFilled
    refine cp_fill_step _ 8 (by omega) ?_ (by decide)
    unfold pf4 pf2 pf1
    rw [getD_set_ne _ _ _ _ (by omega), getD_set_ne _ _ _ _ (by omega),
      getD_set_ne _ _ _ _ (by omega)]
    exact g8

lemma parityFilled_getD_0 (d : List Bool) : (parityFilled d).getD 0 false = false := by
  unfold parityFilled pf4 pf2 pf1
  rw [getD_set_ne _ _ _ _ (by omega), getD_set_ne _ _ _ _ (by omega),
    getD_set_ne _ _ _ _ (by omega), getD_set_ne _ _ _ _ (by omega)]
  exact (dataPlaced_getD_parity d).1

lemma encode_length (d : List Bool) : (encode_chunk_11_to_16 d).length = 16 := by
  rw [encode_eq, List.length_set]
  exact (pf_lengths d).2.2.2

lemma encode_cp (d : List Bool) (p : Nat) (hp : p ∈ PARITY_POSITIONS) :
    covered_parity (encode_chunk_11_to_16 d) p = false := by
  rw [encode_eq]
  obtain ⟨c1, c2, c4, c8⟩ := parityFilled_cp d
  have h0 : (0 : Nat) < (parityFilled d).length := by
    rw [(pf_lengths d).2.2.2]; omega
  fin_cases hp
  · rw [cp_fill_other _ _ 0 h0 (by decide)]; exact c1
  · rw [cp_fill_other _ _ 0 h0 (by decide)]; exact c2
  · rw [cp_fill_other _ _ 0 h0 (by decide)]; exact c4
  · rw [cp_fill_other _ _ 0 h0 (by decide)]; exact c8

lemma encode_syndrome (d : List Bool) : syndromeOf (encode_chunk_11_to_16 d) = 0 := by
  rw [syndromeOf_eq,
    encode_cp d 1 (by decide), encode_cp d 2 (by decide),
    encode_cp d 4 (by decide), encode_cp d 8 (by decide)]
  rfl

lemma encode_parity (d : List Bool) : parity (encode_chunk_11_to_16 d) = false := by
  rw [encode_eq, parity_set _ _ _ (by rw [(pf_lengths d).2.2.2]; omega),
    parityFilled_getD_0 d,
    parity_eq_head_tail (parityFilled d)
      (by intro h; have := (pf_lengths d).2.2.2; rw [h] at this; simp at this),
    parityFilled_getD_0 d, Bool.false_xor]
  generalize parity ((parityFilled d).drop 1) = x
  cases x <;> rfl

lemma decode_valid (cw : List Bool) (hS : syndromeOf cw = 0) (hP : parity cw = false) :
    decode_chunk_16 cw =
      ⟨true, false, false, DATA_POSITIONS.map (fun pos => cw.getD pos false)⟩ := by
  unfold decode_chunk_16
  rw [hS, hP]
  rfl

lemma encode_getD_pos (d : List Bool) (pos : Nat) (hpos : pos ∈ DATA_POSITIONS) :
    (encode_chunk_11_to_16 d).getD pos false = (dataPlaced d).getD pos false := by
  have hne : 0 ≠ pos ∧ 1 ≠ pos ∧ 2 ≠ pos ∧ 4 ≠ pos ∧ 8 ≠ pos := by
    simp only [DATA_POSITIONS, List.mem_cons, List.not_mem_nil, or_false] at hpos
    rcases hpos with h | h | h | h | h | h | h | h | h | h | h <;> subst h <;>
      exact ⟨by decide, by decide, by decide, by decide, by decide⟩
  obtain ⟨e0, e1, e2, e4, e8⟩ := hne
  rw [encode_eq, getD_set_ne _ _ _ _ e0]
  unfold parityFilled pf4 pf2 pf1
  rw [getD_set_ne _ _ _ _ e8, getD_set_ne _ _ _ _ e4,
    getD_set_ne _ _ _ _ e2, getD_set_ne _ _ _ _ e1]

lemma dataPlaced_dataBits (d : List Bool) :
    DATA_POSITIONS.map (fun pos => (dataPlaced d).getD pos false) =
      (List.range 11).map (fun i => d.getD i false) := by
  rw [dataPlaced_eq]
  rfl

lemma encode_dataBits (d : List Bool) :
    DATA_POSITIONS.map (fun pos => (encode_chunk_11_to_16 d).getD pos false) =
      (List.range 11).map (fun i => d.getD i false) := by
  rw [← dataPlaced_dataBits]
  exact List.map_congr_left (fun pos hpos => encode_getD_pos d pos hpos)

lemma decode_encode (d : List Bool) :
    decode_chunk_16 (encode_chunk_11_to_16 d) =
      ⟨true, false, false, (List.range 11).map (fun i => d.getD i false)⟩ := by
  rw [decode_valid _ (encode_syndrome d) (encode_parity d)]
  rw [encode_dataBits]

lemma map_getD_self (d : List Bool) (h : d.length = 11) :
    (List.range 11).map (fun i => d.getD i false) = d := by
  apply List.ext_getElem (by simp [h])
  intro i h1 h2
  rw [List.getElem_map, List.getElem_range, List.getD_eq_getElem d false (by omega)]

lemma syndrome_decide : ∀ j : Fin 16,
    ((if decide (j.val ∈ coveredList 1) = true then 1 else 0) +
     (if decide (j.val ∈ coveredList 2) = true then 2 else 0) +
     (if decide (j.val ∈ coveredList 4) = true then 4 else 0) +
     (if decide (j.val ∈ coveredList 8) = true then 8 else 0) : Nat) = j.val := by
  decide

lemma syndrome2_decide : ∀ j k : Fin 16, j ≠ k →
    ((if xor (decide (k.val ∈ coveredList 1)) (decide (j.val ∈ coveredList 1)) = true
        then 1 else 0) +
     (if xor (decide (k.val ∈ coveredList 2)) (decide (j.val ∈ coveredList 2)) = true
        then 2 else 0) +
     (if xor (decide (k.val ∈ coveredList 4)) (decide (j.val ∈ coveredList 4)) = true
        then 4 else 0) +
     (if xor (decide (k.val ∈ coveredList 8)) (decide (j.val ∈ coveredList 8)) = true
        then 8 else 0) : Nat) ≠ 0 := by
  decide

lemma syndrome_flip (cw : List Bool) (h16 : cw.length = 16)
    (hcp : ∀ p ∈ PARITY_POSITIONS, covered_parity cw p = false) (j : Fin 16) :
    syndromeOf (flipBit cw j.val) = j.val := by
  have hj : j.val < cw.length := by rw [h16]; exact j.isLt
  rw [syndromeOf_eq, cp_flip cw j.val 1 hj, cp_flip cw j.val 2 hj,
    cp_flip cw j.val 4 hj, cp_flip cw j.val 8 hj,
    hcp 1 (by decide), hcp 2 (by decide), hcp 4 (by decide), hcp 8 (by decide)]
  simp only [Bool.xor_false]
  exact syndrome_decide j

lemma flip_correct_cancel (cw : List Bool) (j : Nat) (hj : j < cw.length) :
    (flipBit cw j).set j (!((flipBit cw j).getD j false)) = cw := by
  unfold flipBit
  rw [getD_set_eq2 _ _ _ hj, Bool.not_not, List.set_set, set_getD_self _ _ hj]

lemma decode_flip (cw : List Bool) (h16 : cw.length = 16)
    (hcp : ∀ p ∈ PARITY_POSITIONS, covered_parity cw p = false)
    (hP : parity cw = false) (j : Fin 16) :
    decode_chunk_16 (flipBit cw j.val) =
      ⟨true, false, true, DATA_POSITIONS.map (fun pos => cw.getD pos false)⟩ := by
  have hj : j.val < cw.length := by rw [h16]; exact j.isLt
  have hS := syndrome_flip cw h16 hcp j
  have hPf : parity (flipBit cw j.val) = true := by
    rw [parity_flip _ _ hj, hP]
    rfl
  unfold decode_chunk_16
  rw [hS, hPf]
  by_cases hj0 : j.val = 0
  · rw [hj0, if_pos ⟨rfl, rfl⟩, flip_correct_cancel cw 0 (by rw [h16]; omega)]
  · rw [if_neg (fun h => hj0 h.2), if_pos rfl, flip_correct_cancel cw j.val hj]

lemma decode_flip2 (cw : List Bool) (h16 : cw.length = 16)
    (hcp : ∀ p ∈ PARITY_POSITIONS, covered_parity cw p = false)
    (hP : parity cw = false) (j k : Fin 16) (hjk : j ≠ k) :
    (decode_chunk_16 (flipBit (flipBit cw j.val) k.val)).doubleError = true := by
  have hj : j.val < cw.length := by rw [h16]; exact j.isLt
  have hk : k.val < (flipBit cw j.val).length := by
    rw [flipBit, List.length_set, h16]; exact k.isLt
  have hPf : parity (flipBit (flipBit cw j.val) k.val) = false := by
    rw [parity_flip _ _ hk, parity_flip _ _ hj, hP]
    rfl
  have hSne : syndromeOf (flipBit (flipBit cw j.val) k.val) ≠ 0 := by
    rw [syndromeOf_eq,
      cp_flip (flipBit cw j.val) k.val 1 hk, cp_flip (flipBit cw j.val) k.val 2 hk,
      cp_flip (flipBit cw j.val) k.val 4 hk, cp_flip (flipBit cw j.val) k.val 8 hk,
      cp_flip cw j.val 1 hj, cp_flip cw j.val 2 hj,
      cp_flip cw j.val 4 hj, cp_flip cw j.val 8 hj,
      hcp 1 (by decide), hcp 2 (by decide), hcp 4 (by decide), hcp 8 (by decide)]
    simp only [Bool.xor_false]
    exact syndrome2_decide j k hjk
  unfold decode_chunk_16
  rw [hPf, if_neg (fun h => absurd h.1 (by decide)), if_neg (by decide), if_pos hSne]

lemma decode_of_some (g : Grid) (bits : List Bool) (cc : Nat)
    (h : decodeChunks (extract_codewords_from_grid g) = some (bits, cc)) :
    DecoderApp.decode g =
      (if isValidUtf8 (payloadOf (bits_to_bytes_msb bits))
       then .decoded (payloadOf (bits_to_bytes_msb bits)) cc
       else .fallback (payloadOf (bits_to_bytes_msb bits))
         (fallbackText (payloadOf (bits_to_bytes_msb bits))) cc) := by
  unfold DecoderApp.decode
  rw [h]

lemma decode_of_none (g : Grid)
    (h : decodeChunks (extract_codewords_from_grid g) = none) :
    DecoderApp.decode g = .rejected := by
  unfold DecoderApp.decode
  rw [h]

lemma decodeChunks_map_encode (chunks : List (List Bool))
    (h : ∀ c ∈ chunks, c.length = 11) :
    decodeChunks (chunks.map encode_chunk_11_to_16) = some (chunks.flatten, 0) := by
  induction chunks with
  | nil => rfl
  | cons c t ih =>
    rw [List.map_cons]
    show decodeChunks (encode_chunk_11_to_16 c :: t.map encode_chunk_11_to_16) = _
    unfold decodeChunks
    rw [decode_encode c, ih (fun x hx => h x (List.mem_cons_of_mem _ hx))]
    rw [map_getD_self c (h c (List.mem_cons_self ..))]
    rfl

lemma flatten_chunks (l : List Bool) (n : Nat) :
    ((List.range n).map (fun i => (l.drop (i * 11)).take 11)).flatten =
      l.take (n * 11) := by
  induction n with
  | zero => rfl
  | succ n ih =>
    rw [List.range_succ, List.map_append, List.flatten_append, ih]
    show _ ++ ([(l.drop (n * 11)).take 11].flatten) = _
    rw [show [(l.drop (n * 11)).take 11].flatten = (l.drop (n * 11)).take 11 from by
      simp]
    rw [show (n + 1) * 11 = n * 11 + 11 from by ring, List.take_add]

lemma bytes_to_bits_length (bs : List Nat) :
    (bytes_to_bits_msb bs).length = 8 * bs.length := by
  induction bs with
  | nil => rfl
  | cons B t ih =>
    show (_ ++ bytes_to_bits_msb t).length = _
    rw [List.length_append, ih]
    simp [List.length_map]
    ring

/-- The per-byte accumulator loop of `bits_to_bytes_msb`. -/
def byteVal (l : List Bool) : Nat :=
  (List.range 8).foldl (fun v b => (v <<< 1) ||| (if l.getD b false then 1 else 0)) 0

lemma getD_cons8 (x0 x1 x2 x3 x4 x5 x6 x7 : Bool) (rest : List Bool) (k : Nat) :
    (x0 :: x1 :: x2 :: x3 :: x4 :: x5 :: x6 :: x7 :: rest).getD (k + 8) false =
      rest.getD k false := by
  rw [show k + 8 = k + 7 + 1 from rfl, List.getD_cons_succ,
    show k + 7 = k + 6 + 1 from rfl, List.getD_cons_succ,
    show k + 6 = k + 5 + 1 from rfl, List.getD_cons_succ,
    show k + 5 = k + 4 + 1 from rfl, List.getD_cons_succ,
    show k + 4 = k + 3 + 1 from rfl, List.getD_cons_succ,
    show k + 3 = k + 2 + 1 from rfl, List.getD_cons_succ,
    show k + 2 = k + 1 + 1 from rfl, List.getD_cons_succ,
    show k + 1 = k + 0 + 1 from rfl, List.getD_cons_succ]

lemma b2b_cons8 (b0 b1 b2 b3 b4 b5 b6 b7 : Bool) (rest : List Bool) :
    bits_to_bytes_msb (b0 :: b1 :: b2 :: b3 :: b4 :: b5 :: b6 :: b7 :: rest) =
      byteVal [b0, b1, b2, b3, b4, b5, b6, b7] :: bits_to_bytes_msb rest := by
  have hn : ((b0 :: b1 :: b2 :: b3 :: b4 :: b5 :: b6 :: b7 :: rest).length + 7) / 8 =
      ((rest.length + 7) / 8) + 1 := by
    simp only [List.length_cons]
    omega
  simp only [bits_to_bytes_msb]
  rw [hn, List.range_succ_eq_map ((rest.length + 7) / 8), List.map_cons, List.map_map]
  congr 1
  apply List.map_congr_left
  intro i hi
  apply List.foldl_ext
  intro acc b hb
  congr 1
  rw [show Nat.succ i * 8 + b = i * 8 + b + 8 from by omega, getD_cons8]

lemma bitsOfByte_eq (B : Nat) :
    (List.range 8).map (fun i => decide ((B >>> (7 - i)) &&& 1 = 1)) =
      [decide ((B >>> 7) &&& 1 = 1), decide ((B >>> 6) &&& 1 = 1),
       decide ((B >>> 5) &&& 1 = 1), decide ((B >>> 4) &&& 1 = 1),
       decide ((B >>> 3) &&& 1 = 1), decide ((B >>> 2) &&& 1 = 1),
       decide ((B >>> 1) &&& 1 = 1), decide ((B >>> 0) &&& 1 = 1)] := rfl

set_option maxRecDepth 40000 in
lemma byteVal_bits_fin : ∀ B : Fin 256,
    byteVal [decide ((B.val >>> 7) &&& 1 = 1), decide ((B.val >>> 6) &&& 1 = 1),
      decide ((B.val >>> 5) &&& 1 = 1), decide ((B.val >>> 4) &&& 1 = 1),
      decide ((B.val >>> 3) &&& 1 = 1), decide ((B.val >>> 2) &&& 1 = 1),
      decide ((B.val >>> 1) &&& 1 = 1), decide ((B.val >>> 0) &&& 1 = 1)] = B.val := by
  decide

lemma bytes_bits_roundtrip (bs : List Nat) (h : ∀ B ∈ bs, B < 256) (rest : List Bool) :
    bits_to_bytes_msb (bytes_to_bits_msb bs ++ rest) = bs ++ bits_to_bytes_msb rest := by
  induction bs with
  | nil => rfl
  | cons B t ih =>
    show bits_to_bytes_msb
      (((List.range 8).map (fun i => decide ((B >>> (7 - i)) &&& 1 = 1)) ++
        bytes_to_bits_msb t) ++ rest) = _
    rw [List.append_assoc, bitsOfByte_eq]
    simp only [List.cons_append, List.nil_append]
    rw [b2b_cons8, ih (fun x hx => h x (List.mem_cons_of_mem _ hx)),
      byteVal_bits_fin ⟨B, h B (List.mem_cons_self ..)⟩]

lemma findIdx_zero_aux (raw : List Nat) (h : ∀ b ∈ raw, b ≠ 0) (rest : List Nat)
    (i : Nat) :
    List.findIdx? (fun b => b == 0) (raw ++ 0 :: rest) i = some (i + raw.length) := by
  induction raw generalizing i with
  | nil => rw [List.nil_append, List.findIdx?_cons]; simp
  | cons a t ih =>
    rw [List.cons_append, List.findIdx?_cons,
      if_neg (by simpa using h a (List.mem_cons_self ..)),
      ih (fun b hb => h b (List.mem_cons_of_mem _ hb))]
    congr 1
    simp only [List.length_cons]
    omega

lemma payloadOf_no_zero (raw : List Nat) (h : ∀ b ∈ raw, b ≠ 0) (rest : List Nat) :
    payloadOf (raw ++ 0 :: rest) = raw := by
  unfold payloadOf
  rw [findIdx_zero_aux raw h rest 0]
  show (raw ++ 0 :: rest).take (0 + raw.length) = raw
  rw [Nat.zero_add]
  exact List.take_left raw (0 :: rest)

/-- The full 176-bit message built by `build_codewords_from_text`:
the packed `raw ++ [0]` bytes followed by the random filler bits. -/
def msgBits (raw : List Nat) (rand : Nat → Bool) : List Bool :=
  bytes_to_bits_msb (raw ++ [0]) ++
    (List.range (176 - (bytes_to_bits_msb (raw ++ [0])).length)).map rand

lemma msgBits_length (raw : List Nat) (rand : Nat → Bool) (h21 : raw.length ≤ 21) :
    (msgBits raw rand).length = 176 := by
  unfold msgBits
  rw [List.length_append, List.length_map, List.length_range, bytes_to_bits_length,
    List.length_append]
  simp only [List.length_cons, List.length_nil]
  omega

lemma build_eq (raw : List Nat) (rand : Nat → Bool) (h21 : raw.length ≤ 21) :
    build_codewords_from_text raw rand =
      .ok (((List.range 16).map
        (fun i => ((msgBits raw rand).drop (i * 11)).take 11)).map
        encode_chunk_11_to_16) := by
  have htake : (bytes_to_bits_msb (raw ++ [0]) ++
      (List.range (176 - (bytes_to_bits_msb (raw ++ [0])).length)).map rand).take 176 =
      msgBits raw rand := by
    nth_rewrite 1 [show (176 : Nat) = (msgBits raw rand).length from
      (msgBits_length raw rand h21).symm]
    exact List.take_length _
  simp only [build_codewords_from_text]
  rw [if_neg (by omega), htake]

lemma chunks_length (raw : List Nat) (rand : Nat → Bool) (h21 : raw.length ≤ 21) :
    ∀ c ∈ (List.range 16).map
      (fun i => ((msgBits raw rand).drop (i * 11)).take 11), c.length = 11 := by
  intro c hc
  obtain ⟨i, hi, rfl⟩ := List.mem_map.mp hc
  have hi16 : i < 16 := List.mem_range.mp hi
  rw [List.length_take, List.length_drop, msgBits_length raw rand h21]
  omega

lemma chunks_shape (raw : List Nat) (rand : Nat → Bool) :
    MShape (((List.range 16).map
      (fun i => ((msgBits raw rand).drop (i * 11)).take 11)).map
      encode_chunk_11_to_16) := by
  constructor
  · rw [List.length_map, List.length_map, List.length_range]
  · intro row hrow
    obtain ⟨c, _, rfl⟩ := List.mem_map.mp hrow
    exact encode_length c

/-- C1 (round trip): encoding any byte sequence of at most 21 bytes with
no 0x00 byte, placing the codewords over any base grid, and decoding
yields exactly the original payload with zero corrected chunks.  `raw`
stands for the UTF-8 encoding of the text T (hence the validity
hypothesis), and the `decoded` constructor means the shown text is its
UTF-8 decoding, i.e. T itself. -/
theorem round_trip_C1 (raw : List Nat) (rand : Nat → Bool) (base : Grid)
    (h21 : raw.length ≤ 21) (h0 : ∀ b ∈ raw, b ≠ 0) (h256 : ∀ b ∈ raw, b < 256)
    (hutf : isValidUtf8 raw = true) :
    ∃ cws, build_codewords_from_text raw rand = .ok cws ∧
      DecoderApp.decode (place_codewords_to_grid cws base) = .decoded raw 0 := by
  refine ⟨_, build_eq raw rand h21, ?_⟩
  have hchunks := decodeChunks_map_encode _ (chunks_length raw rand h21)
  have hflat : ((List.range 16).map
      (fun i => ((msgBits raw rand).drop (i * 11)).take 11)).flatten =
      msgBits raw rand := by
    rw [flatten_chunks]
    rw [show (16 * 11 : Nat) = 176 from rfl,
      show (176 : Nat) = (msgBits raw rand).length from
        (msgBits_length raw rand h21).symm]
    exact List.take_length _
  rw [hflat] at hchunks
  have hext := extract_place _ base (chunks_shape raw rand)
  rw [decode_of_some _ (msgBits raw rand) 0 (by rw [hext]; exact hchunks)]
  have hbytes : bits_to_bytes_msb (msgBits raw rand) =
      raw ++ 0 :: bits_to_bytes_msb
        ((List.range (176 - (bytes_to_bits_msb (raw ++ [0])).length)).map rand) := by
    unfold msgBits
    rw [bytes_bits_roundtrip (raw ++ [0])
      (by
        intro B hB
        rcases List.mem_append.mp hB with h | h
        · exact h256 B h
        · simp at h
          omega)]
    rw [List.append_assoc, List.singleton_append]
  rw [hbytes, payloadOf_no_zero raw h0, hutf]
  rfl

/-- The single-cell corruption used by the resilience claims: toggle the
cell at `(r, c)` of a grid. -/
def flipCell (g : Grid) (r c : Nat) : Grid :=
  fun r' c' => if r'.val = r ∧ c'.val = c then !(g r' c') else g r' c'

lemma gridGet_flipCell (g : Grid) (r c r' c' : Nat)
    (hr' : r' < 20) (hc' : c' < 20) :
    gridGet (flipCell g r c) r' c' =
      if r' = r ∧ c' = c then !(gridGet g r' c') else gridGet g r' c' := by
  rw [gridGet_lt _ r' c' hr' hc', gridGet_lt g r' c' hr' hc']
  rfl

lemma cell_inj : ∀ b ch j i : Fin 16,
    ((cellR b.val ch.val = cellR j.val i.val ∧ cellC b.val ch.val = cellC j.val i.val) ↔
      (b = j ∧ ch = i)) := by
  intro b ch j i
  have hb := b.isLt
  have hch := ch.isLt
  have hj := j.isLt
  have hi := i.isLt
  simp only [cellR, cellC, DATA_START]
  constructor
  · rintro ⟨h1, h2⟩
    exact ⟨Fin.ext (by omega), Fin.ext (by omega)⟩
  · rintro ⟨h1, h2⟩
    subst h1
    subst h2
    exact ⟨rfl, rfl⟩

lemma gridGet_place (cws : List (List Bool)) (base : Grid) (ch b : Nat)
    (hch : ch < 16) (hb : b < 16) :
    gridGet (place_codewords_to_grid cws base) (cellR b ch) (cellC b ch) =
      (cws.getD ch []).getD b false := by
  rw [gridGet_lt _ _ _ (cellR_lt b ch hb hch) (cellC_lt b ch hb hch), place_get]
  have e1 : (cellR b ch - 4) % 4 * 4 + (cellC b ch - 4) % 4 = ch := by
    simp only [cellR, cellC, DATA_START]
    omega
  have e2 : (cellR b ch - 4) / 4 * 4 + (cellC b ch - 4) / 4 = b := by
    simp only [cellR, cellC, DATA_START]
    omega
  rw [if_pos]
  · rw [e1, e2]
  · refine ⟨?_, ?_⟩ <;> simp only [cellR, cellC, DATA_START] <;> omega

lemma rowlen_set (A : List (List Bool)) (hA : MShape A) (i : Nat) (hi : i < 16)
    (row : List Bool) (hrow : row.length = 16) : MShape (A.set i row) := by
  refine ⟨by rw [List.length_set]; exact hA.1, ?_⟩
  intro r hr
  rcases List.mem_or_eq_of_mem_set hr with h | h
  · exact hA.2 _ h
  · rw [h]; exact hrow

lemma extract_flip_place (cws : List (List Bool)) (base : Grid) (hshape : MShape cws)
    (i j : Fin 16) :
    extract_codewords_from_grid
      (flipCell (place_codewords_to_grid cws base)
        (cellR j.val i.val) (cellC j.val i.val)) =
      cws.set i.val (flipBit (cws.getD i.val []) j.val) := by
  have hES := extract_shape
    (flipCell (place_codewords_to_grid cws base) (cellR j.val i.val) (cellC j.val i.val))
  have hrowlen : (cws.getD i.val []).length = 16 := hshape.rowlen i.isLt
  have hflen : (flipBit (cws.getD i.val []) j.val).length = 16 := by
    rw [flipBit, List.length_set]
    exact hrowlen
  have hRS : MShape (cws.set i.val (flipBit (cws.getD i.val []) j.val)) :=
    rowlen_set cws hshape i.val i.isLt _ hflen
  apply List.ext_getElem
  · rw [hES.1, hRS.1]
  intro ch h1 h2
  apply List.ext_getElem
  · rw [hES.2 _ (List.getElem_mem _), hRS.2 _ (List.getElem_mem _)]
  intro b hb1 hb2
  have hch : ch < 16 := by rw [hES.1] at h1; omega
  have hb : b < 16 := by rw [hES.2 _ (List.getElem_mem _)] at hb1; omega
  rw [← mGet_eq_getElem _ _ _ h1 hb1, ← mGet_eq_getElem _ _ _ h2 hb2]
  rw [extract_get _ ch b hch hb,
    gridGet_flipCell _ _ _ _ _ (cellR_lt b ch hb hch) (cellC_lt b ch hb hch),
    gridGet_place cws base ch b hch hb]
  show _ = mGet (cws.set i.val (flipBit (cws.getD i.val []) j.val)) ch b
  unfold mGet
  rw [getD_set_gen]
  have hilen : i.val < cws.length := by rw [hshape.1]; exact i.isLt
  have hjlen : j.val < (cws.getD i.val []).length := by rw [hrowlen]; exact j.isLt
  by_cases hchi : ch = i.val
  · rw [if_pos (⟨hchi.symm, hilen⟩ : i.val = ch ∧ i.val < cws.length)]
    unfold flipBit
    rw [getD_set_gen]
    by_cases hbj : b = j.val
    · rw [if_pos
          (⟨hbj.symm, hjlen⟩ : j.val = b ∧ j.val < (cws.getD i.val []).length),
        if_pos ((cell_inj ⟨b, hb⟩ ⟨ch, hch⟩ j i).mpr ⟨Fin.ext hbj, Fin.ext hchi⟩),
        hchi, hbj]
    · rw [if_neg (fun hcon : j.val = b ∧ j.val < (cws.getD i.val []).length =>
          hbj hcon.1.symm),
        if_neg (fun hcon :
            cellR b ch = cellR j.val i.val ∧ cellC b ch = cellC j.val i.val =>
          hbj (congrArg Fin.val ((cell_inj ⟨b, hb⟩ ⟨ch, hch⟩ j i).mp hcon).1)),
        hchi]
  · rw [if_neg (fun hcon : i.val = ch ∧ i.val < cws.length => hchi hcon.1.symm),
      if_neg (fun hcon :
          cellR b ch = cellR j.val i.val ∧ cellC b ch = cellC j.val i.val =>
        hchi (congrArg Fin.val ((cell_inj ⟨b, hb⟩ ⟨ch, hch⟩ j i).mp hcon).2))]

lemma getD_flip2 (row : List Bool) (hlen : row.length = 16) (j k : Fin 16)
    (hjk : j ≠ k) (b : Nat) :
    (flipBit (flipBit row j.val) k.val).getD b false =
      if b = k.val then !(row.getD k.val false)
      else if b = j.val then !(row.getD j.val false)
      else row.getD b false := by
  have hjk' : j.val ≠ k.val := fun h => hjk (Fin.ext h)
  unfold flipBit
  rw [show (row.set j.val (!(row.getD j.val false))).getD k.val false =
      row.getD k.val false from getD_set_ne _ _ _ _ hjk']
  rw [getD_set_gen]
  by_cases hbk : b = k.val
  · rw [if_pos (⟨hbk.symm, by rw [List.length_set, hlen]; exact k.isLt⟩ :
      k.val = b ∧ k.val < (row.set j.val (!(row.getD j.val false))).length), if_pos hbk]
  · rw [if_neg (fun hc : k.val = b ∧ _ => hbk hc.1.symm), if_neg hbk, getD_set_gen]
    by_cases hbj : b = j.val
    · rw [if_pos (⟨hbj.symm, by rw [hlen]; exact j.isLt⟩ :
        j.val = b ∧ j.val < row.length), if_pos hbj]
    · rw [if_neg (fun hc : j.val = b ∧ _ => hbj hc.1.symm), if_neg hbj]

lemma extract_flip2_place (cws : List (List Bool)) (base : Grid) (hshape : MShape cws)
    (i j k : Fin 16) (hjk : j ≠ k) :
    extract_codewords_from_grid
      (flipCell (flipCell (place_codewords_to_grid cws base)
        (cellR j.val i.val) (cellC j.val i.val))
        (cellR k.val i.val) (cellC k.val i.val)) =
      cws.set i.val (flipBit (flipBit (cws.getD i.val []) j.val) k.val) := by
  have hES := extract_shape
    (flipCell (flipCell (place_codewords_to_grid cws base)
      (cellR j.val i.val) (cellC j.val i.val)) (cellR k.val i.val) (cellC k.val i.val))
  have hrowlen : (cws.getD i.val []).length = 16 := hshape.rowlen i.isLt
  have hflen : (flipBit (flipBit (cws.getD i.val []) j.val) k.val).length = 16 := by
    unfold flipBit
    rw [List.length_set, List.length_set]
    exact hrowlen
  have hRS : MShape (cws.set i.val (flipBit (flipBit (cws.getD i.val []) j.val) k.val)) :=
    rowlen_set cws hshape i.val i.isLt _ hflen
  apply List.ext_getElem
  · rw [hES.1, hRS.1]
  intro ch h1 h2
  apply List.ext_getElem
  · rw [hES.2 _ (List.getElem_mem _), hRS.2 _ (List.getElem_mem _)]
  intro b hb1 hb2
  have hch : ch < 16 := by rw [hES.1] at h1; omega
  have hb : b < 16 := by rw [hES.2 _ (List.getElem_mem _)] at hb1; omega
  rw [← mGet_eq_getElem _ _ _ h1 hb1, ← mGet_eq_getElem _ _ _ h2 hb2]
  rw [extract_get _ ch b hch hb,
    gridGet_flipCell _ _ _ _ _ (cellR_lt b ch hb hch) (cellC_lt b ch hb hch),
    gridGet_flipCell _ _ _ _ _ (cellR_lt b ch hb hch) (cellC_lt b ch hb hch),
    gridGet_place cws base ch b hch hb]
  show _ = mGet (cws.set i.val (flipBit (flipBit (cws.getD i.val []) j.val) k.val)) ch b
  unfold mGet
  rw [getD_set_gen]
  have hilen : i.val < cws.length := by rw [hshape.1]; exact i.isLt
  by_cases hchi : ch = i.val
  · rw [if_pos (⟨hchi.symm, hilen⟩ : i.val = ch ∧ i.val < cws.length),
      getD_flip2 _ hrowlen j k hjk b]
    by_cases hbk : b = k.val
    · rw [if_pos hbk,
        if_pos ((cell_inj ⟨b, hb⟩ ⟨ch, hch⟩ k i).mpr ⟨Fin.ext hbk, Fin.ext hchi⟩),
        if_neg (fun hcon :
            cellR b ch = cellR j.val i.val ∧ cellC b ch = cellC j.val i.val =>
          hjk (Fin.ext (by
            have h2 : b = j.val :=
              congrArg Fin.val ((cell_inj ⟨b, hb⟩ ⟨ch, hch⟩ j i).mp hcon).1
            omega))),
        hchi, hbk]
    · rw [if_neg hbk,
        if_neg (fun hcon :
            cellR b ch = cellR k.val i.val ∧ cellC b ch = cellC k.val i.val =>
          hbk (congrArg Fin.val ((cell_inj ⟨b, hb⟩ ⟨ch, hch⟩ k i).mp hcon).1))]
      by_cases hbj : b = j.val
      · rw [if_pos hbj,
          if_pos ((cell_inj ⟨b, hb⟩ ⟨ch, hch⟩ j i).mpr ⟨Fin.ext hbj, Fin.ext hchi⟩),
          hchi, hbj]
      · rw [if_neg hbj,
          if_neg (fun hcon :
              cellR b ch = cellR j.val i.val ∧ cellC b ch = cellC j.val i.val =>
            hbj (congrArg Fin.val ((cell_inj ⟨b, hb⟩ ⟨ch, hch⟩ j i).mp hcon).1)),
          hchi]
  · rw [if_neg (fun hcon : i.val = ch ∧ i.val < cws.length => hchi hcon.1.symm),
      if_neg (fun hcon :
          cellR b ch = cellR k.val i.val ∧ cellC b ch = cellC k.val i.val =>
        hchi (congrArg Fin.val ((cell_inj ⟨b, hb⟩ ⟨ch, hch⟩ k i).mp hcon).2)),
      if_neg (fun hcon :
          cellR b ch = cellR j.val i.val ∧ cellC b ch = cellC j.val i.val =>
        hchi (congrArg Fin.val ((cell_inj ⟨b, hb⟩ ⟨ch, hch⟩ j i).mp hcon).2))]

lemma decodeChunks_single_flip (chunks : List (List Bool))
    (h : ∀ c ∈ chunks, c.length = 11) (i : Nat) (hi : i < chunks.length)
    (j : Fin 16) :
    decodeChunks ((chunks.map encode_chunk_11_to_16).set i
      (flipBit ((chunks.map encode_chunk_11_to_16).getD i []) j.val)) =
      some (chunks.flatten, 1) := by
  induction chunks generalizing i with
  | nil => simp at hi
  | cons c t ih =>
    cases i with
    | zero =>
      simp only [List.map_cons, List.set_cons_zero, List.getD_cons_zero]
      show decodeChunks
        (flipBit (encode_chunk_11_to_16 c) j.val :: t.map encode_chunk_11_to_16) = _
      unfold decodeChunks
      rw [decode_flip (encode_chunk_11_to_16 c) (encode_length c)
          (fun p hp => encode_cp c p hp) (encode_parity c) j,
        decodeChunks_map_encode t (fun x hx => h x (List.mem_cons_of_mem _ hx)),
        encode_dataBits, map_getD_self c (h c (List.mem_cons_self ..))]
      rfl
    | succ n =>
      simp only [List.map_cons, List.set_cons_succ, List.getD_cons_succ]
      show decodeChunks (encode_chunk_11_to_16 c :: _) = _
      unfold decodeChunks
      rw [decode_encode c,
        ih (fun x hx => h x (List.mem_cons_of_mem _ hx)) n (by simpa using hi),
        map_getD_self c (h c (List.mem_cons_self ..))]
      rfl

lemma decodeChunks_double_flip (chunks : List (List Bool)) (i : Nat)
    (hi : i < chunks.length) (j k : Fin 16) (hjk : j ≠ k) :
    decodeChunks ((chunks.map encode_chunk_11_to_16).set i
      (flipBit (flipBit ((chunks.map encode_chunk_11_to_16).getD i []) j.val) k.val)) =
      none := by
  induction chunks generalizing i with
  | nil => simp at hi
  | cons c t ih =>
    cases i with
    | zero =>
      simp only [List.map_cons, List.set_cons_zero, List.getD_cons_zero]
      show decodeChunks
        (flipBit (flipBit (encode_chunk_11_to_16 c) j.val) k.val ::
          t.map encode_chunk_11_to_16) = _
      unfold decodeChunks
      rw [decode_flip2 (encode_chunk_11_to_16 c) (encode_length c)
        (fun p hp => encode_cp c p hp) (encode_parity c) j k hjk]
      rfl
    | succ n =>
      simp only [List.map_cons, List.set_cons_succ, List.getD_cons_succ]
      show decodeChunks (encode_chunk_11_to_16 c :: _) = _
      unfold decodeChunks
      rw [decode_encode c, ih n (by simpa using hi)]
      rfl

/-- C3 (single-bit resilience): flipping exactly one cell — bit `j` of
chunk `i` — of the placed grid still decodes to the original payload,
with at least one corrected chunk. -/
theorem single_flip_C3 (raw : List Nat) (rand : Nat → Bool) (base : Grid)
    (h21 : raw.length ≤ 21) (h0 : ∀ b ∈ raw, b ≠ 0) (h256 : ∀ b ∈ raw, b < 256)
    (hutf : isValidUtf8 raw = true) (i j : Fin 16) :
    ∃ cws cc, build_codewords_from_text raw rand = .ok cws ∧
      DecoderApp.decode (flipCell (place_codewords_to_grid cws base)
        (cellR j.val i.val) (cellC j.val i.val)) = .decoded raw cc ∧ 1 ≤ cc := by
  refine ⟨_, 1, build_eq raw rand h21, ?_, le_refl 1⟩
  have hflip := extract_flip_place _ base (chunks_shape raw rand) i j
  have hchunks := decodeChunks_single_flip _ (chunks_length raw rand h21)
    i.val (by rw [List.length_map, List.length_range]; exact i.isLt) j
  have hflat : ((List.range 16).map
      (fun i => ((msgBits raw rand).drop (i * 11)).take 11)).flatten =
      msgBits raw rand := by
    rw [flatten_chunks]
    rw [show (16 * 11 : Nat) = 176 from rfl,
      show (176 : Nat) = (msgBits raw rand).length from
        (msgBits_length raw rand h21).symm]
    exact List.take_length _
  rw [hflat] at hchunks
  rw [decode_of_some _ (msgBits raw rand) 1 (by rw [hflip]; exact hchunks)]
  have hbytes : bits_to_bytes_msb (msgBits raw rand) =
      raw ++ 0 :: bits_to_bytes_msb
        ((List.range (176 - (bytes_to_bits_msb (raw ++ [0])).length)).map rand) := by
    unfold msgBits
    rw [bytes_bits_roundtrip (raw ++ [0])
      (by
        intro B hB
        rcases List.mem_append.mp hB with h | h
        · exact h256 B h
        · simp at h
          omega)]
    rw [List.append_assoc, List.singleton_append]
  rw [hbytes, payloadOf_no_zero raw h0, hutf]
  rfl

set_option maxHeartbeats 1000000 in
/-- C2 (double-bit rejection): flipping exactly two distinct cells of one
chunk — bits `j ≠ k` of chunk `i` — of the placed grid makes the decoder
abort with the rejection outcome; no text is produced. -/
theorem double_flip_C2 (raw : List Nat) (rand : Nat → Bool) (base : Grid)
    (h21 : raw.length ≤ 21) (i j k : Fin 16) (hjk : j ≠ k) :
    ∃ cws, build_codewords_from_text raw rand = .ok cws ∧
      DecoderApp.decode (flipCell (flipCell (place_codewords_to_grid cws base)
        (cellR j.val i.val) (cellC j.val i.val))
        (cellR k.val i.val) (cellC k.val i.val)) = .rejected := by
  refine ⟨_, build_eq raw rand h21, ?_⟩
  have hflip := extract_flip2_place _ base (chunks_shape raw rand) i j k hjk
  have hchunks := decodeChunks_double_flip
    ((List.range 16).map (fun i2 => ((msgBits raw rand).drop (i2 * 11)).take 11))
    i.val (by rw [List.length_map, List.length_range]; exact i.isLt) j k hjk
  exact decode_of_none _ (by rw [hflip]; exact hchunks)

/-- C9: every codeword produced by the encoder has even overall parity —
the XOR of its bits at indices 1..15 equals the bit at index 0. -/
theorem encode_overall_parity_C9 (d : List Bool) (h : d.length = 11) :
    parity ((encode_chunk_11_to_16 d).drop 1) =
      (encode_chunk_11_to_16 d).getD 0 false := by
  rw [encode_eq, List.drop_set, if_pos (by omega),
    getD_set_eq2 _ _ _ (by rw [(pf_lengths d).2.2.2]; omega)]

/-- C5: building the codewords fails (with the over-21-bytes message shown
in a dialog) exactly when the UTF-8 payload exceeds 21 bytes, and on
failure `EncoderApp.encode` leaves the caller's grid untouched. -/
theorem payload_too_large_C5 (grid : Grid) (raw : List Nat) (rand : Nat → Bool) :
    ((∃ e, build_codewords_from_text raw rand = .error e) ↔ 21 < raw.length) ∧
    (21 < raw.length →
      EncoderApp.encode grid raw rand =
        (grid, some "입력은 UTF-8 기준 21바이트 이하여야 합니다.")) := by
  constructor
  · constructor
    · rintro ⟨e, he⟩
      by_contra hlen
      rw [build_codewords_from_text, if_neg (by omega)] at he
      exact absurd he (by simp)
    · intro h
      exact ⟨_, by rw [build_codewords_from_text, if_pos (by omega)]⟩
  · intro h
    unfold EncoderApp.encode
    rw [build_codewords_from_text, if_pos (by omega)]

lemma takeWhile_no_zero (l : List Nat) (h : ∀ b ∈ l, b ≠ 0) :
    l.takeWhile (fun b => !(b == 0)) = l := by
  induction l with
  | nil => rfl
  | cons a t ih =>
    rw [List.takeWhile_cons,
      if_pos (by simpa using h a (List.mem_cons_self ..)),
      ih (fun b hb => h b (List.mem_cons_of_mem _ hb))]

lemma payloadOf_eq_takeWhile (l : List Nat) :
    payloadOf l = l.takeWhile (fun b => !(b == 0)) := by
  unfold payloadOf
  induction l with
  | nil => rfl
  | cons a t ih =>
    rw [List.findIdx?_cons, List.takeWhile_cons]
    by_cases ha : a = 0
    · rw [if_pos (by simpa using ha), if_neg (by simpa using ha)]
      rfl
    · rw [if_neg (by simpa using ha), if_pos (by simpa using ha),
        List.findIdx?_succ]
      rcases hfind : List.findIdx? (fun b => b == 0) t 0 with _ | n
      · rw [hfind] at ih
        rw [← ih]
        rfl
      · rw [hfind] at ih
        rw [← ih]
        rfl

lemma decode_dataBits_length (cw : List Bool) :
    (decode_chunk_16 cw).dataBits.length = 11 := by
  unfold decode_chunk_16
  split_ifs <;> rfl

lemma decodeChunks_length (l : List (List Bool)) (bits : List Bool) (cc : Nat)
    (h : decodeChunks l = some (bits, cc)) : bits.length = 11 * l.length := by
  induction l generalizing bits cc with
  | nil =>
    unfold decodeChunks at h
    simp at h
    rw [h.1]
    rfl
  | cons cw t ih =>
    unfold decodeChunks at h
    by_cases hd : (decode_chunk_16 cw).doubleError = true
    · rw [if_pos hd] at h
      exact absurd h (by simp)
    · rw [if_neg hd] at h
      rcases hrec : decodeChunks t with _ | ⟨bits', cc'⟩ <;> rw [hrec] at h
      · exact absurd h (by simp)
      · simp only [Option.some.injEq, Prod.mk.injEq] at h
        rw [← h.1, List.length_append, decode_dataBits_length, ih bits' cc' hrec,
          List.length_cons]
        ring

lemma bits_to_bytes_length (bits : List Bool) :
    (bits_to_bytes_msb bits).length = (bits.length + 7) / 8 := by
  simp only [bits_to_bytes_msb]
  rw [List.length_map, List.length_range]

lemma fold_byte_bound (bits : List Bool) (i : Nat) : ∀ n : Nat,
    ((List.range n).foldl
      (fun v b => (v <<< 1) ||| (if bits.getD (i * 8 + b) false then 1 else 0)) 0) <
      2 ^ n := by
  intro n
  induction n with
  | zero => exact Nat.zero_lt_one
  | succ n ih =>
    rw [List.range_succ, List.foldl_append, List.foldl_cons, List.foldl_nil]
    apply Nat.or_lt_two_pow
    · rw [Nat.shiftLeft_eq, pow_one, pow_succ]
      exact (Nat.mul_lt_mul_right (by omega)).mpr ih
    · have h2 : 1 ≤ 2 ^ n := Nat.one_le_two_pow
      rw [pow_succ]
      split_ifs <;> omega
  

lemma bytes_lt_256 (bits : List Bool) : ∀ x ∈ bits_to_bytes_msb bits, x < 256 := by
  intro x hx
  obtain ⟨i, hi, rfl⟩ := List.mem_map.mp hx
  exact fold_byte_bound bits i 8

lemma mem_payloadOf (l : List Nat) (x : Nat) (hx : x ∈ payloadOf l) : x ∈ l := by
  unfold payloadOf at hx
  rcases hfind : List.findIdx? (fun b => b == 0) l 0 with _ | n <;> rw [hfind] at hx
  · exact hx
  · exact List.mem_of_mem_take hx

/-- C6: in any successful decode, the byte buffer is exactly 22 bytes and
the payload is its longest prefix of non-0x00 bytes — the prefix strictly
before the first 0x00 byte, or the whole buffer when it has no 0x00. -/
theorem payload_truncation_C6 (g : Grid) (bits : List Bool) (cc : Nat)
    (h : decodeChunks (extract_codewords_from_grid g) = some (bits, cc)) :
    (bits_to_bytes_msb bits).length = 22 ∧
    ∃ payload,
      (DecoderApp.decode g = .decoded payload cc ∨
        DecoderApp.decode g = .fallback payload (fallbackText payload) cc) ∧
      payload = (bits_to_bytes_msb bits).takeWhile (fun b => !(b == 0)) ∧
      ((0 : Nat) ∉ bits_to_bytes_msb bits → payload = bits_to_bytes_msb bits) := by
  have hlen : bits.length = 176 := by
    rw [decodeChunks_length _ _ _ h, (extract_shape g).1]
  refine ⟨by rw [bits_to_bytes_length, hlen], payloadOf (bits_to_bytes_msb bits),
    ?_, payloadOf_eq_takeWhile _, ?_⟩
  · rw [decode_of_some g bits cc h]
    by_cases hv : isValidUtf8 (payloadOf (bits_to_bytes_msb bits)) = true
    · left
      rw [if_pos hv]
    · right
      rw [if_neg hv]
  · intro h0
    rw [payloadOf_eq_takeWhile,
      takeWhile_no_zero _ (fun b hb hb0 => h0 (hb0 ▸ hb))]

/-- The spec's wording of the fallback rendering: each payload byte as
exactly two lowercase hex digits (zero padded), space separated. -/
def hexByteSpec (b : Nat) : String :=
  String.mk (if b < 16 then '0' :: Nat.toDigits 16 b else Nat.toDigits 16 b)

/-- The spec's space-separated lowercase hex dump of the payload. -/
def hexDumpSpec (payload : List Nat) : String :=
  String.intercalate " " (payload.map hexByteSpec)

set_option maxRecDepth 100000 in
set_option maxHeartbeats 1000000 in
lemma hexByte_eq_spec : ∀ b : Fin 256, hexByte b.val = hexByteSpec b.val := by
  decide

/-- C7 (amended): a successful bit-level decode whose payload is not
valid UTF-8 yields the fallback result; its text is the fixed prefix
`"(바이트 해석 오류) HEX: "` followed by exactly the lowercase
space-separated hex dump of the payload — not the bare hex dump alone. -/
theorem utf8_fallback_C7 (g : Grid) (bits : List Bool) (cc : Nat)
    (h : decodeChunks (extract_codewords_from_grid g) = some (bits, cc))
    (hinv : isValidUtf8 (payloadOf (bits_to_bytes_msb bits)) = false) :
    DecoderApp.decode g =
      .fallback (payloadOf (bits_to_bytes_msb bits))
        ("(바이트 해석 오류) HEX: " ++
          hexDumpSpec (payloadOf (bits_to_bytes_msb bits)))
        cc := by
  rw [decode_of_some g bits cc h, if_neg (by simp [hinv])]
  unfold fallbackText hexDumpSpec
  have hmap : (payloadOf (bits_to_bytes_msb bits)).map hexByte =
      (payloadOf (bits_to_bytes_msb bits)).map hexByteSpec :=
    List.map_congr_left (fun b hb =>
      hexByte_eq_spec ⟨b, bytes_lt_256 bits b (mem_payloadOf _ b hb)⟩)
  rw [hmap]

/-- C4: extracting the codewords from the grid obtained by placing any
array of sixteen 16-bit codewords over any base grid returns exactly the
original codewords — `extract` is the inverse of `place`. -/
theorem extract_place_C4 (cws : List (List Bool)) (base : Grid)
    (hshape : MShape cws) :
    extract_codewords_from_grid (place_codewords_to_grid cws base) = cws :=
  extract_place cws base hshape

/-- Witness for C4 at a concrete codeword array. -/
theorem extract_place_C4_witness :
    MShape (List.replicate 16 (List.replicate 16 true)) ∧
    extract_codewords_from_grid (place_codewords_to_grid
      (List.replicate 16 (List.replicate 16 true)) empty_grid) =
      List.replicate 16 (List.replicate 16 true) := by
  have hs : MShape (List.replicate 16 (List.replicate 16 true)) := by
    refine ⟨rfl, ?_⟩
    intro row h
    rw [List.eq_of_mem_replicate h]
    rfl
  exact ⟨hs, extract_place_C4 _ empty_grid hs⟩

/-- Witness for C10 at a concrete grid and data cell. -/
theorem overlay_frame_witness :
    4 ≤ (5 : Fin 20).val ∧ 4 ≤ (7 : Fin 20).val ∧
    apply_finder_overlay (fun _ _ => true) 5 7 = (fun _ _ => true : Grid) 5 7 :=
  ⟨by decide, by decide, overlay_frame (fun _ _ => true) 5 7 (by decide) (by decide)⟩

/-- Witness for C9 at a concrete 11-bit input. -/
theorem encode_overall_parity_C9_witness :
    ([true, false, true, true, false, false, true, false, true, true,
      true] : List Bool).length = 11 ∧
    parity ((encode_chunk_11_to_16
      [true, false, true, true, false, false, true, false, true, true,
       true]).drop 1) =
      (encode_chunk_11_to_16
        [true, false, true, true, false, false, true, false, true, true,
         true]).getD 0 false :=
  ⟨rfl, encode_overall_parity_C9 _ rfl⟩

/-- Witness for C5 at 22 ASCII bytes. -/
theorem payload_too_large_C5_witness :
    21 < (List.replicate 22 65 : List Nat).length ∧
    EncoderApp.encode empty_grid (List.replicate 22 65) (fun _ => false) =
      (empty_grid, some "입력은 UTF-8 기준 21바이트 이하여야 합니다.") :=
  ⟨by decide,
    (payload_too_large_C5 empty_grid (List.replicate 22 65) (fun _ => false)).2
      (by decide)⟩

/-- Witness for C1 at the one-byte text `"A"`. -/
theorem round_trip_C1_witness :
    ([65] : List Nat).length ≤ 21 ∧ (∀ b ∈ ([65] : List Nat), b ≠ 0) ∧
    (∀ b ∈ ([65] : List Nat), b < 256) ∧ isValidUtf8 [65] = true ∧
    (∃ cws, build_codewords_from_text [65] (fun _ => false) = .ok cws ∧
      DecoderApp.decode (place_codewords_to_grid cws empty_grid) =
        .decoded [65] 0) :=
  ⟨by decide, by decide, by decide, by decide,
    round_trip_C1 [65] (fun _ => false) empty_grid
      (by decide) (by decide) (by decide) (by decide)⟩

/-- Witness for C3 at the text `"A"`, chunk 2, bit 5. -/
theorem single_flip_C3_witness :
    ([65] : List Nat).length ≤ 21 ∧ (∀ b ∈ ([65] : List Nat), b ≠ 0) ∧
    (∀ b ∈ ([65] : List Nat), b < 256) ∧ isValidUtf8 [65] = true ∧
    (∃ cws cc, build_codewords_from_text [65] (fun _ => false) = .ok cws ∧
      DecoderApp.decode (flipCell (place_codewords_to_grid cws empty_grid)
        (cellR (5 : Fin 16).val (2 : Fin 16).val)
        (cellC (5 : Fin 16).val (2 : Fin 16).val)) = .decoded [65] cc ∧
      1 ≤ cc) :=
  ⟨by decide, by decide, by decide, by decide,
    single_flip_C3 [65] (fun _ => false) empty_grid
      (by decide) (by decide) (by decide) (by decide) 2 5⟩

/-- Witness for C2 at the text `"A"`, chunk 1, bits 3 and 5. -/
theorem double_flip_C2_witness :
    ([65] : List Nat).length ≤ 21 ∧ (3 : Fin 16) ≠ (5 : Fin 16) ∧
    (∃ cws, build_codewords_from_text [65] (fun _ => false) = .ok cws ∧
      DecoderApp.decode (flipCell (flipCell (place_codewords_to_grid cws empty_grid)
        (cellR (3 : Fin 16).val (1 : Fin 16).val)
        (cellC (3 : Fin 16).val (1 : Fin 16).val))
        (cellR (5 : Fin 16).val (1 : Fin 16).val)
        (cellC (5 : Fin 16).val (1 : Fin 16).val)) = .rejected) :=
  ⟨by decide, by decide,
    double_flip_C2 [65] (fun _ => false) empty_grid (by decide) 1 3 5 (by decide)⟩

set_option maxRecDepth 100000 in
set_option maxHeartbeats 4000000 in
/-- Witness for C6 at the blank decoder grid. -/
theorem payload_truncation_C6_witness :
    decodeChunks (extract_codewords_from_grid empty_grid) =
      some (List.replicate 176 false, 0) ∧
    ((bits_to_bytes_msb (List.replicate 176 false)).length = 22 ∧
      ∃ payload,
        (DecoderApp.decode empty_grid = .decoded payload 0 ∨
          DecoderApp.decode empty_grid =
            .fallback payload (fallbackText payload) 0) ∧
        payload =
          (bits_to_bytes_msb (List.replicate 176 false)).takeWhile
            (fun b => !(b == 0)) ∧
        ((0 : Nat) ∉ bits_to_bytes_msb (List.replicate 176 false) →
          payload = bits_to_bytes_msb (List.replicate 176 false))) := by
  have h : decodeChunks (extract_codewords_from_grid empty_grid) =
      some (List.replicate 176 false, 0) := by decide
  exact ⟨h, payload_truncation_C6 empty_grid _ 0 h⟩

/-- The one-chunk codeword of the 0xFF test message. -/
def c7cw0 : List Bool :=
  [false, true, true, true, false, true, true, true, false, true, true, true,
   true, false, false, false]

/-- A concrete grid whose data region carries the message `0xFF 0x00 …`:
codeword 0 is `c7cw0`, codewords 1..15 are zero.  Its decoded payload
`[0xFF]` is not valid UTF-8. -/
def c7grid : Grid := fun r c =>
  if (r.val - 4) % 4 = 0 ∧ (c.val - 4) % 4 = 0 ∧ 4 ≤ r.val ∧ 4 ≤ c.val then
    c7cw0.getD ((r.val - 4) / 4 * 4 + (c.val - 4) / 4) false
  else false

set_option maxRecDepth 100000 in
set_option maxHeartbeats 4000000 in
/-- Counterexample to C7 as stated: decoding `c7grid` takes the fallback
branch, but the shown text carries the Korean prefix — it is not exactly
the lowercase hex dump `"ff"` of the payload `[0xFF]`. -/
theorem utf8_fallback_C7_counterexample :
    DecoderApp.decode c7grid =
      .fallback [255] "(바이트 해석 오류) HEX: ff" 0 ∧
    "(바이트 해석 오류) HEX: ff" ≠ hexDumpSpec [255] :=
  ⟨by decide, by decide⟩

set_option maxRecDepth 100000 in
set_option maxHeartbeats 4000000 in
/-- Witness for the amended C7 at the concrete grid `c7grid`. -/
theorem utf8_fallback_C7_witness :
    decodeChunks (extract_codewords_from_grid c7grid) =
      some (List.replicate 8 true ++ List.replicate 168 false, 0) ∧
    isValidUtf8 (payloadOf (bits_to_bytes_msb
      (List.replicate 8 true ++ List.replicate 168 false))) = false ∧
    DecoderApp.decode c7grid =
      .fallback (payloadOf (bits_to_bytes_msb
          (List.replicate 8 true ++ List.replicate 168 false)))
        ("(바이트 해석 오류) HEX: " ++
          hexDumpSpec (payloadOf (bits_to_bytes_msb
            (List.replicate 8 true ++ List.replicate 168 false))))
        0 := by
  have h : decodeChunks (extract_codewords_from_grid c7grid) =
      some (List.replicate 8 true ++ List.replicate 168 false, 0) := by decide
  have hinv : isValidUtf8 (payloadOf (bits_to_bytes_msb
      (List.replicate 8 true ++ List.replicate 168 false))) = false := by decide
  exact ⟨h, hinv, utf8_fallback_C7 c7grid _ 0 h hinv⟩
